import Mathlib

/-!
Shallow embedding of the ceres-dsp core (src/src/core.rs) and of the code
generated by the `parameters` attribute macro (src/ceres-macros/src/lib.rs).

Modelling conventions:
* `f32` sample and parameter values are modelled as `Rat`; the claims under
  study are about the algebraic structure of the computations, not rounding.
* Rust `Vec`/slices are modelled as `List`; `Vec` indexing (which panics when
  out of bounds) is modelled with `List.get?`, a `none` result standing for a
  panic, and functions that can hit such an index return `Option`.
* `TypeId` is modelled as `Nat`; the opaque deferred factories and modulator
  instances stored by the `Builder`, whose contents no claim inspects, are
  modelled as `Unit` elements so that only the lengths of those vectors are
  observable, exactly as in the source where they are opaque boxed values.
* A modulator's `get_value` method is modelled as a function `Nat → Rat`.
-/

/-- `pub const BUFFER_SIZE: usize = 256;` from core.rs. -/
def BUFFER_SIZE : Nat := 256

/-- Rust `x.clamp(0.0, 1.0)` on the values under consideration. -/
def clamp01 (x : Rat) : Rat := min (max x 0) 1

/-- `ModulationRouting { source_index, amount }` stored by the generated
`route_*` methods. -/
structure ModulationRouting where
  source_index : Nat
  amount : Rat
deriving DecidableEq

/-- One declared field of a `#[parameters]` struct: its name, its base value
(the corresponding field of `self.base`), and its `*_modulation` slot. -/
structure ParamField where
  name : String
  base : Rat
  routing : Option ModulationRouting
deriving DecidableEq

/-- The macro-generated `<Name>Runtime` struct: base values and routings per
field, plus `computed_values: [<Name>; BUFFER_SIZE]`.  A snapshot struct is
modelled as the list of its field values in declaration order. -/
structure ParamRuntime where
  fields : List ParamField
  computed_values : List (List Rat)
deriving DecidableEq

/-- The generated per-field modulation term
`self.<f>_modulation.as_ref().map(|routing| sources[routing.source_index].get_value(i) * routing.amount).unwrap_or(0.0)`;
`none` models the panic of `sources[routing.source_index]` when the stored
source index is out of bounds. -/
def fieldModulation (sources : List (Nat → Rat)) (routing : Option ModulationRouting)
    (i : Nat) : Option Rat :=
  match routing with
  | some r => (sources.get? r.source_index).map (fun src => src i * r.amount)
  | none => some 0

/-- The generated per-field resolution
`let <f> = (self.base.<f> + <f>).clamp(0.0, 1.0);`. -/
def resolveField (sources : List (Nat → Rat)) (f : ParamField) (i : Nat) : Option Rat :=
  (fieldModulation sources f.routing i).map (fun m => clamp01 (f.base + m))

/-- One iteration of the generated update loop body: the snapshot struct
`<Name> { f1, f2, ... }` written to `self.computed_values[i]`. -/
def resolveSnapshot (sources : List (Nat → Rat)) (fields : List ParamField)
    (i : Nat) : Option (List Rat) :=
  match fields with
  | [] => some []
  | f :: rest =>
    match resolveField sources f i, resolveSnapshot sources rest i with
    | some v, some vs => some (v :: vs)
    | _, _ => none

/-- The generated loop `for i in 0..BUFFER_SIZE { ... }`, unrolled from index
`start` for `n` iterations, collecting the snapshots in order. -/
def resolveBlockAux (sources : List (Nat → Rat)) (fields : List ParamField) :
    Nat → Nat → Option (List (List Rat))
  | _, 0 => some []
  | start, n + 1 =>
    match resolveSnapshot sources fields start, resolveBlockAux sources fields (start + 1) n with
    | some v, some vs => some (v :: vs)
    | _, _ => none

/-- The generated `ParameterRuntime::update(&mut self, sources)`:
recompute all `BUFFER_SIZE` snapshots from the modulator sources. -/
def ParamRuntime.update (pr : ParamRuntime) (sources : List (Nat → Rat)) :
    Option ParamRuntime :=
  (resolveBlockAux sources pr.fields 0 BUFFER_SIZE).map
    (fun cv => { pr with computed_values := cv })

/-- The generated `route_parameter` match: the first field whose name matches
gets `self.<f>_modulation = Some(ModulationRouting { source_index, amount })`;
an unmatched name falls through to the `_ => {}` arm. -/
def routeFields : List ParamField → String → Nat → Rat → List ParamField
  | [], _, _, _ => []
  | f :: rest, param_name, source_index, amount =>
    if f.name = param_name then
      { f with routing := some ⟨source_index, amount⟩ } :: rest
    else
      f :: routeFields rest param_name source_index amount

/-- The generated `ParameterRuntime::route_parameter(&mut self, param_name,
source_index, amount)`. -/
def ParamRuntime.route_parameter (pr : ParamRuntime) (param_name : String)
    (source_index : Nat) (amount : Rat) : ParamRuntime :=
  { pr with fields := routeFields pr.fields param_name source_index amount }

/-- The generated accessor `Index` impl:
`&self.values[index % ::ceres::BUFFER_SIZE]`. -/
def accessorIndex (values : List (List Rat)) (index : Nat) : Option (List Rat) :=
  values.get? (index % BUFFER_SIZE)

/-- Reading field `j` of the resolved snapshot stored at sample index `i` of
`computed_values`. -/
def resolvedValue (pr : ParamRuntime) (i j : Nat) : Option Rat :=
  (pr.computed_values.get? i).bind (fun snap => snap.get? j)

/-- The `Runtime` struct of core.rs, polymorphic over the (Rust-dynamic)
element types: `S` for the boxed `dyn Any` states, `P` for the boxed
`dyn ParameterRuntime` targets, `M` for the boxed `dyn Modulator` sources and
`C` for the root component function. -/
structure Runtime (S P M C : Type) where
  states : List S
  modulation_targets : List P
  modulation_sources : List M
  component : C
deriving DecidableEq

/-- `Runtime::route`: `self.modulation_targets[target.slot]` followed by
`route_parameter(param, source.slot, amount)`.  The `Vec` indexing panics when
`target.slot` is out of bounds, modelled by the `none` result. -/
def Runtime.route {S M C : Type} (rt : Runtime S ParamRuntime M C)
    (source_slot target_slot : Nat) (param : String) (amount : Rat) :
    Option (Runtime S ParamRuntime M C) :=
  match rt.modulation_targets.get? target_slot with
  | some target_runtime =>
    let routed := target_runtime.route_parameter param source_slot amount
    some { rt with modulation_targets := rt.modulation_targets.set target_slot routed }
  | none => none

/-- `Runtime::tick`: update every modulator in `modulation_sources` with the
sample rate and the events slice, then invoke the root component on the
runtime so mutated.  The dynamic `Modulator::update` method is the parameter
`upd`, and the dynamic invocation of the boxed component closure (which
receives `&mut Runtime`, input, output and the sample rate, and leaves the
runtime and output in some final state) is the parameter `runComp`. -/
def Runtime.tick {S P M C E : Type} (upd : M → Rat → List E → M)
    (runComp : C → Runtime S P M C → List Rat → List Rat → Rat →
      Runtime S P M C × List Rat)
    (rt : Runtime S P M C) (sample_rate : Rat) (events : List E)
    (input output : List Rat) : Runtime S P M C × List Rat :=
  let sources := rt.modulation_sources.map (fun m => upd m sample_rate events)
  runComp rt.component { rt with modulation_sources := sources } input output sample_rate

/-- A modulator instrumented to record each `update` call it receives: its
state is the list of `(sample_rate, events)` arguments seen so far. -/
def logUpdate {E : Type} (m : List (Rat × List E)) (sample_rate : Rat)
    (events : List E) : List (Rat × List E) :=
  m ++ [(sample_rate, events)]

/-- A root component that merely reports the runtime state it was invoked
with, leaving it and the output buffer untouched. -/
def observeComponent {E : Type} :
    Unit → Runtime Unit Unit (List (Rat × List E)) Unit → List Rat → List Rat →
    Rat → Runtime Unit Unit (List (Rat × List E)) Unit × List Rat :=
  fun _ rt _ output _ => (rt, output)

/-- The `Builder` struct of core.rs.  `TypeId`s are `Nat`; the `HashMap`s are
association lists looked up by first match, insertion prepending; the vectors
of opaque deferred factories and modulator instances hold `Unit`. -/
structure Builder where
  next_state_slot : Nat
  state_builders : List Unit
  state_map : List (Nat × Nat)
  next_modulation_slot : Nat
  modulation_builders : List Unit
  modulation_map : List (Nat × Nat)
  next_source_slot : Nat
  modulation_sources : List Unit
  source_map : List (Nat × Nat)
deriving DecidableEq

/-- `HashMap::get`-style lookup on the association-list model. -/
def lookupMap : List (Nat × Nat) → Nat → Option Nat
  | [], _ => none
  | (k, v) :: rest, key => if k = key then some v else lookupMap rest key

/-- `Builder::new()`. -/
def Builder.new : Builder :=
  { next_state_slot := 0, state_builders := [], state_map := [],
    next_modulation_slot := 0, modulation_builders := [], modulation_map := [],
    next_source_slot := 0, modulation_sources := [], source_map := [] }

/-- `Builder::use_state::<T>`: `state_map.entry(type_id).or_insert_with`,
the miss branch taking the next slot, pushing one deferred factory and
recording the slot; returns the slot of the handle. -/
def Builder.use_state (b : Builder) (type_id : Nat) : Nat × Builder :=
  match lookupMap b.state_map type_id with
  | some slot => (slot, b)
  | none =>
    let slot := b.next_state_slot
    (slot, { b with next_state_slot := slot + 1,
                    state_builders := b.state_builders ++ [()],
                    state_map := (type_id, slot) :: b.state_map })

/-- `Builder::use_parameters::<T>`: same shape as `use_state` on the
`modulation_*` fields. -/
def Builder.use_parameters (b : Builder) (type_id : Nat) : Nat × Builder :=
  match lookupMap b.modulation_map type_id with
  | some slot => (slot, b)
  | none =>
    let slot := b.next_modulation_slot
    (slot, { b with next_modulation_slot := slot + 1,
                    modulation_builders := b.modulation_builders ++ [()],
                    modulation_map := (type_id, slot) :: b.modulation_map })

/-- `Builder::use_modulator::<T>`: no deduplication — always takes the next
slot, pushes one fresh default-constructed instance and (re)inserts the type
key into `source_map`. -/
def Builder.use_modulator (b : Builder) (type_id : Nat) : Nat × Builder :=
  let slot := b.next_source_slot
  (slot, { b with next_source_slot := slot + 1,
                  modulation_sources := b.modulation_sources ++ [()],
                  source_map := (type_id, slot) :: b.source_map })

/-- `Builder::build`: materialize every deferred slot, in order, into the
`Runtime` storage arrays (each factory yields one opaque boxed value) and
move the modulator instances over.  The root component produced by the
factory closure is opaque here. -/
def Builder.build (b : Builder) : Runtime Unit Unit Unit Unit :=
  { states := b.state_builders.map (fun _ => ()),
    modulation_targets := b.modulation_builders.map (fun _ => ()),
    modulation_sources := b.modulation_sources,
    component := () }

/-- A realized component function as the combinators see it: it receives the
input slice and the (already zero-filled) destination slice and yields the
destination's final contents.  A Rust component writes through `&mut [f32]`
and therefore cannot change the destination's length; where that matters it
appears as an explicit hypothesis. -/
def Component : Type := List Rat → List Rat → List Rat

/-- Rust `dst.copy_from_slice(src)`: panics (`none`) unless the lengths
match, otherwise the destination becomes a copy of the source. -/
def copyFromSlice (dst src : List Rat) : Option (List Rat) :=
  if src.length = dst.length then some src else none

/-- The ping-pong loop of the `serial!` closure: stage `i` reads buffer A and
writes buffer B when `i` is even, and conversely when `i` is odd; the
destination is zero-filled (`out.fill(0.0)`) before the stage runs. -/
def pingPong (comps : List Component) (bufA bufB : List Rat) (i : Nat) :
    List Rat × List Rat :=
  match comps with
  | [] => (bufA, bufB)
  | c :: rest =>
    if i % 2 = 0 then
      pingPong rest bufA (c bufA (List.replicate bufB.length 0)) (i + 1)
    else
      pingPong rest (c bufB (List.replicate bufA.length 0)) bufB (i + 1)

/-- The body of the closure produced by the `serial!` macro.  Empty component
list: `output.copy_from_slice(input)`.  Otherwise the two scratch buffers are
sized to the output length, the input is copied into buffer A
(`buffer_a.copy_from_slice(input)`, a panic when the lengths differ), the
stages run ping-pong, and the buffer written by the last stage
(`buffer_b` when the component count is odd, else `buffer_a`) is copied into
the output. -/
def serialRun (comps : List Component) (input output : List Rat) :
    Option (List Rat) :=
  if comps.isEmpty then
    copyFromSlice output input
  else
    let bufA := List.replicate output.length 0
    let bufB := List.replicate output.length 0
    (copyFromSlice bufA input).bind (fun a =>
      let res := pingPong comps a bufB 0
      let finalBuf := if comps.length % 2 = 1 then res.2 else res.1
      copyFromSlice output finalBuf)

/-- The body of the closure produced by the `parallel!` macro: the output is
zero-filled, then every branch runs on a zero-filled scratch buffer of the
output's length and is accumulated into the output with its weight
(`*out += sample * *weight`, the zip truncating at the shorter buffer). -/
def parallelRun (components : List (Rat × Component)) (input output : List Rat) :
    List Rat :=
  components.foldl
    (fun out wc =>
      let buf := wc.2 input (List.replicate output.length 0)
      List.zipWith (fun o s => o + s * wc.1) out buf)
    (List.replicate output.length 0)

/-- A pass-through branch (`output = input`), the "identity component" of the
spec's mix examples. -/
def identityComponent : Component := fun input _ => input

/-- One registration call against the Builder, tagged by kind and carrying
the `TypeId` of the registered Rust type. -/
inductive RegCall where
  | state (type_id : Nat)
  | params (type_id : Nat)
  | modulator (type_id : Nat)
deriving DecidableEq

/-- Run a sequence of registration calls against a Builder (as the root
factory passed to `Builder::build` does while assembling the component tree),
collecting each issued handle as its originating call paired with the slot
stored in the handle. -/
def runCalls (b : Builder) : List RegCall → Builder × List (RegCall × Nat)
  | [] => (b, [])
  | c :: cs =>
    let step := match c with
      | .state t => b.use_state t
      | .params t => b.use_parameters t
      | .modulator t => b.use_modulator t
    let rest := runCalls step.2 cs
    (rest.1, (c, step.1) :: rest.2)

/-- A sequence of `use_state` calls on one Builder: the list of returned
handle slots and the final Builder. -/
def runStateCalls (b : Builder) : List Nat → List Nat × Builder
  | [] => ([], b)
  | t :: ts =>
    let step := b.use_state t
    let rest := runStateCalls step.2 ts
    (step.1 :: rest.1, rest.2)

/-- A sequence of `use_parameters` calls on one Builder. -/
def runParamCalls (b : Builder) : List Nat → List Nat × Builder
  | [] => ([], b)
  | t :: ts =>
    let step := b.use_parameters t
    let rest := runParamCalls step.2 ts
    (step.1 :: rest.1, rest.2)

/-- A sequence of `use_modulator` calls on one Builder. -/
def runModulatorCalls (b : Builder) : List Nat → List Nat × Builder
  | [] => ([], b)
  | t :: ts =>
    let step := b.use_modulator t
    let rest := runModulatorCalls step.2 ts
    (step.1 :: rest.1, rest.2)

/-- A runtime with no registered parameter sets (`modulation_targets` empty),
used to exercise `Runtime::route` against an unregistered slot. -/
def emptyRuntime : Runtime Unit ParamRuntime Unit Unit :=
  { states := [], modulation_targets := [], modulation_sources := [], component := () }

/-- C8: indexing a resolved-parameter accessor wraps modulo the block length
256 — index `256 + k` reads the same entry as `k`, any index `i` reads the
same entry as `i % 256`, and on the 256-entry block the access never fails or
reads out of range. -/
theorem c8_accessor_index_wraps (values : List (List Rat)) (i k : Nat) :
    accessorIndex values (BUFFER_SIZE + k) = accessorIndex values k ∧
    accessorIndex values i = accessorIndex values (i % BUFFER_SIZE) ∧
    (values.length = BUFFER_SIZE → (accessorIndex values i).isSome = true) := by
  refine ⟨?_, ?_, ?_⟩
  · unfold accessorIndex
    rw [Nat.add_mod_left]
  · unfold accessorIndex
    rw [Nat.mod_mod_of_dvd i dvd_rfl]
  · intro h
    unfold accessorIndex
    have hlt : i % BUFFER_SIZE < values.length := by
      rw [h]
      exact Nat.mod_lt i (by decide)
    simp [List.get?_eq_getElem?, hlt]

/-- C8 witness: the wrap equalities and in-range access at a concrete
256-entry block and concrete indices. -/
theorem c8_accessor_index_wraps_witness :
    (List.replicate BUFFER_SIZE ([0] : List Rat)).length = BUFFER_SIZE ∧
    (accessorIndex (List.replicate BUFFER_SIZE ([0] : List Rat)) 5).isSome = true := by
  refine ⟨by simp, ?_⟩
  exact (c8_accessor_index_wraps (List.replicate BUFFER_SIZE [0]) 5 7).2.2 (by simp)

/-- C2 counterexample: routing to a slot with no registered parameter set is
not silently ignored — on a runtime with an empty `modulation_targets` array,
`route` hits `self.modulation_targets[target.slot]` out of bounds and panics
(`none`), rather than returning with the runtime unchanged. -/
theorem c2_route_unregistered_counterexample :
    Runtime.route emptyRuntime 0 0 "cutoff" 1 = none ∧
    Runtime.route emptyRuntime 0 0 "cutoff" 1 ≠ some emptyRuntime := by
  constructor
  · rfl
  · intro h
    simp [Runtime.route, emptyRuntime] at h

/-- C2 amended: calling `route` with a target handle whose slot has no
registered parameter set in the Runtime panics via out-of-bounds `Vec`
indexing (modelled `none`); no routing is installed and no value is
returned. -/
theorem c2_route_unregistered_panics {S M C : Type}
    (rt : Runtime S ParamRuntime M C) (source_slot target_slot : Nat)
    (param : String) (amount : Rat)
    (h : rt.modulation_targets.get? target_slot = none) :
    rt.route source_slot target_slot param amount = none := by
  unfold Runtime.route
  rw [h]

/-- C2 witness: the amended theorem applied to the concrete runtime with no
registered parameter sets. -/
theorem c2_route_unregistered_panics_witness :
    Runtime.route emptyRuntime 1 0 "resonance" (1/2) = none :=
  c2_route_unregistered_panics emptyRuntime 1 0 "resonance" (1/2) rfl

/-- C3 counterexample: the empty sequential chain is not the identity for
buffers of differing lengths — with input `[0]` and an empty output buffer,
`output.copy_from_slice(input)` panics (`none`) instead of making the output
equal the input. -/
theorem c3_serial_empty_counterexample :
    serialRun [] [(0 : Rat)] [] = none ∧
    serialRun [] [(0 : Rat)] [] ≠ some [(0 : Rat)] := by
  constructor
  · rfl
  · intro h
    simp [serialRun, copyFromSlice] at h

/-- C3 amended: a sequential chain built from an empty component list copies
the input to the output (identity passthrough) whenever the input and output
buffers have equal lengths; with differing lengths `copy_from_slice`
panics. -/
theorem c3_serial_empty_identity (input output : List Rat)
    (h : input.length = output.length) :
    serialRun [] input output = some input := by
  simp [serialRun, copyFromSlice, h]

/-- C3 witness: the empty chain reproduces a concrete input on equal-length
buffers. -/
theorem c3_serial_empty_identity_witness :
    serialRun [] [(1 : Rat), 2] [0, 0] = some [(1 : Rat), 2] :=
  c3_serial_empty_identity [1, 2] [0, 0] (by decide)

/-- C6: `tick` invokes `update` on every registered modulator exactly once,
with exactly the events slice passed to this tick call, and all updates
happen before the root component is invoked.  Instrumentation: each modulator
logs the `(sample_rate, events)` arguments of every `update` call it
receives, and the root component reports the runtime exactly as it saw it at
invocation time.  After `tick`, the component-observed state shows every
modulator's log extended by exactly the one record `(sample_rate, events)`,
and the output buffer is untouched by the instrumented component. -/
theorem c6_tick_updates_then_component {E : Type}
    (rt : Runtime Unit Unit (List (Rat × List E)) Unit) (sample_rate : Rat)
    (events : List E) (input output : List Rat) :
    (Runtime.tick logUpdate observeComponent rt sample_rate events input output).1.modulation_sources
        = rt.modulation_sources.map (fun log => log ++ [(sample_rate, events)]) ∧
    (Runtime.tick logUpdate observeComponent rt sample_rate events input output).2 = output := by
  constructor <;> rfl

theorem use_state_lookup_self (b : Builder) (t : Nat) :
    lookupMap ((b.use_state t).2).state_map t = some (b.use_state t).1 := by
  unfold Builder.use_state
  cases h : lookupMap b.state_map t with
  | some s => simp [h]
  | none => simp [h, lookupMap]

theorem use_state_preserves_lookup (b : Builder) (t u s : Nat)
    (h : lookupMap b.state_map u = some s) :
    lookupMap ((b.use_state t).2).state_map u = some s := by
  unfold Builder.use_state
  cases ht : lookupMap b.state_map t with
  | some s2 => simpa [ht]
  | none =>
    have hne : t ≠ u := by
      intro he
      rw [he, h] at ht
      cases ht
    simp [ht, lookupMap, hne, h]

theorem runStateCalls_preserves_lookup (ts : List Nat) (b : Builder) (u s : Nat)
    (h : lookupMap b.state_map u = some s) :
    lookupMap ((runStateCalls b ts).2).state_map u = some s := by
  induction ts generalizing b with
  | nil => simpa [runStateCalls]
  | cons t ts ih =>
    simp only [runStateCalls]
    exact ih _ (use_state_preserves_lookup b t u s h)

theorem runStateCalls_get_lookup (ts : List Nat) (b : Builder) (i t : Nat)
    (h : ts.get? i = some t) :
    ∃ s, (runStateCalls b ts).1.get? i = some s ∧
      lookupMap ((runStateCalls b ts).2).state_map t = some s := by
  induction ts generalizing b i with
  | nil => simp at h
  | cons t0 ts ih =>
    cases i with
    | zero =>
      simp only [List.get?_cons_zero, Option.some.injEq] at h
      subst h
      refine ⟨(b.use_state t0).1, by simp [runStateCalls], ?_⟩
      simp only [runStateCalls]
      exact runStateCalls_preserves_lookup ts _ t0 _ (use_state_lookup_self b t0)
    | succ n =>
      simp only [List.get?_cons_succ] at h
      obtain ⟨s, h1, h2⟩ := ih (b.use_state t0).2 n h
      exact ⟨s, by simpa [runStateCalls] using h1, by simpa [runStateCalls] using h2⟩

theorem use_parameters_lookup_self (b : Builder) (t : Nat) :
    lookupMap ((b.use_parameters t).2).modulation_map t = some (b.use_parameters t).1 := by
  unfold Builder.use_parameters
  cases h : lookupMap b.modulation_map t with
  | some s => simp [h]
  | none => simp [h, lookupMap]

theorem use_parameters_preserves_lookup (b : Builder) (t u s : Nat)
    (h : lookupMap b.modulation_map u = some s) :
    lookupMap ((b.use_parameters t).2).modulation_map u = some s := by
  unfold Builder.use_parameters
  cases ht : lookupMap b.modulation_map t with
  | some s2 => simpa [ht]
  | none =>
    have hne : t ≠ u := by
      intro he
      rw [he, h] at ht
      cases ht
    simp [ht, lookupMap, hne, h]

theorem runParamCalls_preserves_lookup (ts : List Nat) (b : Builder) (u s : Nat)
    (h : lookupMap b.modulation_map u = some s) :
    lookupMap ((runParamCalls b ts).2).modulation_map u = some s := by
  induction ts generalizing b with
  | nil => simpa [runParamCalls]
  | cons t ts ih =>
    simp only [runParamCalls]
    exact ih _ (use_parameters_preserves_lookup b t u s h)

theorem runParamCalls_get_lookup (ts : List Nat) (b : Builder) (i t : Nat)
    (h : ts.get? i = some t) :
    ∃ s, (runParamCalls b ts).1.get? i = some s ∧
      lookupMap ((runParamCalls b ts).2).modulation_map t = some s := by
  induction ts generalizing b i with
  | nil => simp at h
  | cons t0 ts ih =>
    cases i with
    | zero =>
      simp only [List.get?_cons_zero, Option.some.injEq] at h
      subst h
      refine ⟨(b.use_parameters t0).1, by simp [runParamCalls], ?_⟩
      simp only [runParamCalls]
      exact runParamCalls_preserves_lookup ts _ t0 _ (use_parameters_lookup_self b t0)
    | succ n =>
      simp only [List.get?_cons_succ] at h
      obtain ⟨s, h1, h2⟩ := ih (b.use_parameters t0).2 n h
      exact ⟨s, by simpa [runParamCalls] using h1, by simpa [runParamCalls] using h2⟩

/-- C4: in any sequence of `use_state` (respectively `use_parameters`) calls
on one Builder, all calls made with the same type return handles with equal
slot indices — registration is idempotent for the State and Parameter-set
kinds, so equal slots resolve to the identical storage slot of the built
Runtime. -/
theorem c4_dedup_registration_idempotent (b : Builder) (ts : List Nat)
    (i j t : Nat) (hi : ts.get? i = some t) (hj : ts.get? j = some t) :
    (runStateCalls b ts).1.get? i = (runStateCalls b ts).1.get? j ∧
    (runParamCalls b ts).1.get? i = (runParamCalls b ts).1.get? j := by
  constructor
  · obtain ⟨s, hsi, hmi⟩ := runStateCalls_get_lookup ts b i t hi
    obtain ⟨s2, hsj, hmj⟩ := runStateCalls_get_lookup ts b j t hj
    rw [hmi] at hmj
    obtain rfl : s = s2 := by injection hmj
    rw [hsi, hsj]
  · obtain ⟨s, hsi, hmi⟩ := runParamCalls_get_lookup ts b i t hi
    obtain ⟨s2, hsj, hmj⟩ := runParamCalls_get_lookup ts b j t hj
    rw [hmi] at hmj
    obtain rfl : s = s2 := by injection hmj
    rw [hsi, hsj]

/-- C4 witness: two `use_state` calls (and two `use_parameters` calls) with
the same type on a fresh Builder return the same slot. -/
theorem c4_dedup_registration_idempotent_witness :
    (runStateCalls Builder.new [7, 7]).1.get? 0 = (runStateCalls Builder.new [7, 7]).1.get? 1 ∧
    (runParamCalls Builder.new [7, 7]).1.get? 0 = (runParamCalls Builder.new [7, 7]).1.get? 1 :=
  c4_dedup_registration_idempotent Builder.new [7, 7] 0 1 7 (by decide) (by decide)

theorem runModulatorCalls_fst_length (ts : List Nat) (b : Builder) :
    (runModulatorCalls b ts).1.length = ts.length := by
  induction ts generalizing b with
  | nil => simp [runModulatorCalls]
  | cons t ts ih => simp [runModulatorCalls, ih]

theorem runModulatorCalls_get (ts : List Nat) (b : Builder) (i : Nat)
    (h : i < ts.length) :
    (runModulatorCalls b ts).1.get? i = some (b.next_source_slot + i) := by
  induction ts generalizing b i with
  | nil => simp at h
  | cons t ts ih =>
    cases i with
    | zero => simp [runModulatorCalls, Builder.use_modulator]
    | succ n =>
      have hn : n < ts.length := by simpa using h
      have hrec := ih (b.use_modulator t).2 n hn
      have harith : (b.use_modulator t).2.next_source_slot + n
          = b.next_source_slot + (n + 1) := by
        simp [Builder.use_modulator]
        omega
      rw [harith] at hrec
      simpa [runModulatorCalls] using hrec

theorem runModulatorCalls_sources_length (ts : List Nat) (b : Builder) :
    ((runModulatorCalls b ts).2).modulation_sources.length
      = b.modulation_sources.length + ts.length := by
  induction ts generalizing b with
  | nil => simp [runModulatorCalls]
  | cons t ts ih =>
    simp only [runModulatorCalls]
    rw [ih]
    simp [Builder.use_modulator]
    omega

/-- C5: `use_modulator` is not deduplicated — any sequence of calls on one
Builder, even with the identical type every time, yields pairwise distinct
slot indices, and pushes one fresh default-constructed instance per call
(the `modulation_sources` vector grows by exactly the number of calls). -/
theorem c5_modulator_slots_distinct (b : Builder) (ts : List Nat) :
    (∀ i j si sj, i ≠ j →
        (runModulatorCalls b ts).1.get? i = some si →
        (runModulatorCalls b ts).1.get? j = some sj → si ≠ sj) ∧
    ((runModulatorCalls b ts).2).modulation_sources.length
      = b.modulation_sources.length + ts.length := by
  refine ⟨?_, runModulatorCalls_sources_length ts b⟩
  intro i j si sj hne hi hj
  have hilen : i < ts.length := by
    rcases Nat.lt_or_ge i ((runModulatorCalls b ts).1.length) with hlt | hge
    · rwa [runModulatorCalls_fst_length] at hlt
    · rw [List.get?_eq_none.mpr hge] at hi
      cases hi
  have hjlen : j < ts.length := by
    rcases Nat.lt_or_ge j ((runModulatorCalls b ts).1.length) with hlt | hge
    · rwa [runModulatorCalls_fst_length] at hlt
    · rw [List.get?_eq_none.mpr hge] at hj
      cases hj
  rw [runModulatorCalls_get ts b i hilen] at hi
  rw [runModulatorCalls_get ts b j hjlen] at hj
  obtain rfl : si = b.next_source_slot + i := by injection hi with hi2; exact hi2.symm
  obtain rfl : sj = b.next_source_slot + j := by injection hj with hj2; exact hj2.symm
  omega

/-- C5 witness: two `use_modulator` calls with the identical type on a fresh
Builder yield the distinct slots 0 and 1, and two stored instances. -/
theorem c5_modulator_slots_distinct_witness :
    (0 : Nat) ≠ 1 ∧
    ((runModulatorCalls Builder.new [5, 5]).2).modulation_sources.length
      = Builder.new.modulation_sources.length + 2 :=
  ⟨(c5_modulator_slots_distinct Builder.new [5, 5]).1 0 1 0 1 (by decide)
      (by decide) (by decide),
    (c5_modulator_slots_distinct Builder.new [5, 5]).2⟩

theorem resolveBlockAux_length (sources : List (Nat → Rat)) (fields : List ParamField) :
    ∀ (n start : Nat) (cv : List (List Rat)),
      resolveBlockAux sources fields start n = some cv → cv.length = n := by
  intro n
  induction n with
  | zero =>
    intro start cv h
    simp only [resolveBlockAux, Option.some.injEq] at h
    subst h
    rfl
  | succ m ih =>
    intro start cv h
    simp only [resolveBlockAux] at h
    cases h1 : resolveSnapshot sources fields start with
    | none => rw [h1] at h; cases h
    | some v =>
      cases h2 : resolveBlockAux sources fields (start + 1) m with
      | none => rw [h1, h2] at h; cases h
      | some vs =>
        rw [h1, h2] at h
        injection h with h
        subst h
        simp [ih (start + 1) vs h2]

theorem resolveBlockAux_get (sources : List (Nat → Rat)) (fields : List ParamField) :
    ∀ (n start k : Nat) (cv : List (List Rat)),
      resolveBlockAux sources fields start n = some cv → k < n →
      ∃ snap, cv.get? k = some snap ∧
        resolveSnapshot sources fields (start + k) = some snap := by
  intro n
  induction n with
  | zero => intro start k cv h hk; omega
  | succ m ih =>
    intro start k cv h hk
    simp only [resolveBlockAux] at h
    cases h1 : resolveSnapshot sources fields start with
    | none => rw [h1] at h; cases h
    | some v =>
      cases h2 : resolveBlockAux sources fields (start + 1) m with
      | none => rw [h1, h2] at h; cases h
      | some vs =>
        rw [h1, h2] at h
        injection h with h
        subst h
        cases k with
        | zero => exact ⟨v, by simp, by simpa using h1⟩
        | succ k2 =>
          have hk2 : k2 < m := by omega
          obtain ⟨snap, hs1, hs2⟩ := ih (start + 1) k2 vs h2 hk2
          refine ⟨snap, by simpa using hs1, ?_⟩
          have harith : start + 1 + k2 = start + (k2 + 1) := by omega
          rwa [harith] at hs2

theorem resolveSnapshot_get (sources : List (Nat → Rat)) (i : Nat) :
    ∀ (fields : List ParamField) (snap : List Rat) (j : Nat) (f : ParamField),
      resolveSnapshot sources fields i = some snap → fields.get? j = some f →
      snap.get? j = resolveField sources f i := by
  intro fields
  induction fields with
  | nil => intro snap j f h hj; simp at hj
  | cons f0 rest ih =>
    intro snap j f h hj
    simp only [resolveSnapshot] at h
    cases h1 : resolveField sources f0 i with
    | none => rw [h1] at h; cases h
    | some v =>
      cases h2 : resolveSnapshot sources rest i with
      | none => rw [h1, h2] at h; cases h
      | some vs =>
        rw [h1, h2] at h
        injection h with h
        subst h
        cases j with
        | zero =>
          simp only [List.get?_cons_zero, Option.some.injEq] at hj
          subst hj
          simp [h1]
        | succ j2 =>
          simp only [List.get?_cons_succ] at hj ⊢
          exact ih vs j2 f h2 hj

/-- C1: after the generated `ParameterRuntime::update` runs, the resolved
block has 256 entries, and for every sample index `i` of the block and every
field with base value `b`: the stored value is `clamp(b + 0, 0, 1)` when no
routing is installed for the field, and `clamp(b + a * v, 0, 1)` when a
routing of amount `a` to a source whose `get_value(i)` returns `v` is
installed. -/
theorem c1_parameter_resolution (pr pr' : ParamRuntime)
    (sources : List (Nat → Rat)) (i j : Nat) (f : ParamField)
    (hupd : pr.update sources = some pr') (hi : i < BUFFER_SIZE)
    (hj : pr.fields.get? j = some f) :
    pr'.computed_values.length = BUFFER_SIZE ∧
    (f.routing = none → resolvedValue pr' i j = some (clamp01 (f.base + 0))) ∧
    (∀ (r : ModulationRouting) (src : Nat → Rat), f.routing = some r →
        sources.get? r.source_index = some src →
        resolvedValue pr' i j = some (clamp01 (f.base + r.amount * src i))) := by
  unfold ParamRuntime.update at hupd
  cases hblk : resolveBlockAux sources pr.fields 0 BUFFER_SIZE with
  | none => rw [hblk] at hupd; cases hupd
  | some cv =>
    rw [hblk] at hupd
    injection hupd with hupd
    subst hupd
    obtain ⟨snap, hs1, hs2⟩ := resolveBlockAux_get sources pr.fields BUFFER_SIZE 0 i cv hblk hi
    have hv := resolveSnapshot_get sources i pr.fields snap j f (by simpa using hs2) hj
    have hres : resolvedValue { pr with computed_values := cv } i j
        = resolveField sources f i := by
      unfold resolvedValue
      rw [show ({ pr with computed_values := cv } : ParamRuntime).computed_values = cv from rfl,
        hs1]
      simpa using hv
    refine ⟨resolveBlockAux_length sources pr.fields BUFFER_SIZE 0 cv hblk, ?_, ?_⟩
    · intro hr
      rw [hres]
      unfold resolveField
      rw [hr]
      rfl
    · intro r src hr hsrc
      have hmod : fieldModulation sources f.routing i = some (src i * r.amount) := by
        rw [hr]
        show (sources.get? r.source_index).map (fun s => s i * r.amount)
          = some (src i * r.amount)
        rw [hsrc]
        rfl
      rw [hres]
      unfold resolveField
      rw [hmod]
      simp [mul_comm]

theorem resolveBlockAux_const (sources : List (Nat → Rat)) (fields : List ParamField)
    (snap : List Rat) (h : ∀ k, resolveSnapshot sources fields k = some snap) :
    ∀ (n start : Nat),
      resolveBlockAux sources fields start n = some (List.replicate n snap) := by
  intro n
  induction n with
  | zero => intro start; rfl
  | succ m ih =>
    intro start
    simp [resolveBlockAux, h start, ih (start + 1), List.replicate_succ]

/-- A concrete two-field parameter set: `cutoff` (base 0) routed with amount 1
to source slot 0, `resonance` (base 1) unrouted. -/
def wFields : List ParamField :=
  [{ name := "cutoff", base := 0, routing := some { source_index := 0, amount := 1 } },
   { name := "resonance", base := 1, routing := none }]

/-- One modulator whose `get_value` returns 1 at every index. -/
def wSources : List (Nat → Rat) := [fun _ => 1]

/-- The concrete parameter runtime before `update`. -/
def wPR : ParamRuntime := { fields := wFields, computed_values := [] }

/-- The concrete parameter runtime after `update`: every one of the 256
snapshots resolves to `[1, 1]`. -/
def wResolved : ParamRuntime :=
  { fields := wFields, computed_values := List.replicate BUFFER_SIZE [1, 1] }

theorem wSnapshot (k : Nat) : resolveSnapshot wSources wFields k = some [1, 1] := by
  norm_num [resolveSnapshot, resolveField, fieldModulation, wSources, wFields, clamp01]

theorem wUpdate : wPR.update wSources = some wResolved := by
  unfold ParamRuntime.update
  rw [show wPR.fields = wFields from rfl]
  rw [resolveBlockAux_const wSources wFields [1, 1] wSnapshot BUFFER_SIZE 0]
  rfl

/-- C1 witness: on the concrete parameter set, after `update` the routed
field resolves to `clamp(0 + 1 * 1, 0, 1)` and the unrouted field to
`clamp(1 + 0, 0, 1)` at concrete sample indices. -/
theorem c1_parameter_resolution_witness :
    resolvedValue wResolved 0 0 = some (clamp01 (0 + 1 * 1)) ∧
    resolvedValue wResolved 3 1 = some (clamp01 (1 + 0)) :=
  ⟨(c1_parameter_resolution wPR wResolved wSources 0 0
      { name := "cutoff", base := 0, routing := some { source_index := 0, amount := 1 } }
      wUpdate (by decide) rfl).2.2 { source_index := 0, amount := 1 } (fun _ => 1) rfl rfl,
   (c1_parameter_resolution wPR wResolved wSources 3 1
      { name := "resonance", base := 1, routing := none }
      wUpdate (by decide) rfl).2.1 rfl⟩

theorem zipWith_get? (f : Rat → Rat → Rat) :
    ∀ (l1 l2 : List Rat) (i : Nat),
      (List.zipWith f l1 l2).get? i
        = match l1.get? i, l2.get? i with
          | some a, some b => some (f a b)
          | _, _ => none := by
  intro l1
  induction l1 with
  | nil => intro l2 i; cases l2 <;> cases i <;> rfl
  | cons a l1 ih =>
    intro l2 i
    cases l2 with
    | nil =>
      cases i with
      | zero => rfl
      | succ n => cases hx : (a :: l1).get? (n + 1) <;> rfl
    | cons b l2 =>
      cases i with
      | zero => rfl
      | succ n => simpa using ih l2 n

theorem replicate_get? (x : Rat) :
    ∀ (n i : Nat), (List.replicate n x).get? i = if i < n then some x else none := by
  intro n
  induction n with
  | zero => intro i; simp
  | succ m ih =>
    intro i
    cases i with
    | zero => simp [List.replicate_succ]
    | succ k =>
      rw [List.replicate_succ, List.get?_cons_succ, ih k]
      simp [Nat.succ_lt_succ_iff]

theorem get?_some_lt {α : Type} (l : List α) (i : Nat) (a : α)
    (h : l.get? i = some a) : i < l.length := by
  rcases Nat.lt_or_ge i l.length with h1 | h1
  · exact h1
  · rw [List.get?_eq_none.mpr h1] at h
    cases h

/-- C7: a weighted mix of two identity branches with weights `w1` and `w2`
produces `(w1 + w2) * x` at every sample of input `x` — the weights are not
normalized — and a single identity branch of weight `w` produces `w * x`. -/
theorem c7_weighted_mix_sums_weights (w w1 w2 : Rat) (input output : List Rat)
    (i : Nat) (x : Rat) (hlen : input.length = output.length)
    (hx : input.get? i = some x) :
    (parallelRun [(w1, identityComponent), (w2, identityComponent)] input output).get? i
      = some ((w1 + w2) * x) ∧
    (parallelRun [(w, identityComponent)] input output).get? i = some (w * x) := by
  have hi : i < output.length := by
    rw [← hlen]
    exact get?_some_lt input i x hx
  have h0 : (List.replicate output.length (0 : Rat)).get? i = some 0 := by
    rw [replicate_get?]
    simp [hi]
  have h1 : ∀ (u : Rat),
      (List.zipWith (fun o s => o + s * u) (List.replicate output.length 0) input).get? i
        = some (0 + x * u) := by
    intro u
    rw [zipWith_get?, h0, hx]
  have h2 : (List.zipWith (fun o s => o + s * w2)
        (List.zipWith (fun o s => o + s * w1) (List.replicate output.length 0) input)
        input).get? i = some (0 + x * w1 + x * w2) := by
    rw [zipWith_get?, h1 w1, hx]
  constructor
  · show (List.zipWith (fun o s => o + s * w2)
        (List.zipWith (fun o s => o + s * w1) (List.replicate output.length 0)
          (identityComponent input (List.replicate output.length 0)))
        (identityComponent input (List.replicate output.length 0))).get? i
      = some ((w1 + w2) * x)
    rw [show identityComponent input (List.replicate output.length 0) = input from rfl, h2]
    have : 0 + x * w1 + x * w2 = (w1 + w2) * x := by ring
    rw [this]
  · show (List.zipWith (fun o s => o + s * w) (List.replicate output.length 0)
        (identityComponent input (List.replicate output.length 0))).get? i
      = some (w * x)
    rw [show identityComponent input (List.replicate output.length 0) = input from rfl, h1 w]
    have : 0 + x * w = w * x := by ring
    rw [this]

/-- C7 witness: the mix equalities at the concrete input `[2, 3]` with
weights 1 and 2 (two branches) and 5 (single branch). -/
theorem c7_weighted_mix_sums_weights_witness :
    (parallelRun [(1, identityComponent), (2, identityComponent)] [2, 3] [0, 0]).get? 0
      = some (((1 : Rat) + 2) * 2) ∧
    (parallelRun [(5, identityComponent)] [2, 3] [0, 0]).get? 0 = some ((5 : Rat) * 2) :=
  ⟨(c7_weighted_mix_sums_weights 5 1 2 [2, 3] [0, 0] 0 2 rfl rfl).1,
   (c7_weighted_mix_sums_weights 5 1 2 [2, 3] [0, 0] 0 2 rfl rfl).2⟩

theorem pingPong_lengths : ∀ (comps : List Component),
    (∀ c ∈ comps, ∀ inp buf, (c inp buf).length = buf.length) →
    ∀ (a b : List Rat) (i : Nat),
      (pingPong comps a b i).1.length = a.length ∧
      (pingPong comps a b i).2.length = b.length := by
  intro comps
  induction comps with
  | nil => intro _ a b i; exact ⟨rfl, rfl⟩
  | cons c rest ih =>
    intro h a b i
    have hc : ∀ inp buf, (c inp buf).length = buf.length := h c (by simp)
    have hrest : ∀ c2 ∈ rest, ∀ inp buf, (c2 inp buf).length = buf.length :=
      fun c2 hc2 => h c2 (List.mem_cons_of_mem _ hc2)
    unfold pingPong
    by_cases hp : i % 2 = 0
    · rw [if_pos hp]
      obtain ⟨ha, hb⟩ := ih hrest a (c a (List.replicate b.length 0)) (i + 1)
      refine ⟨ha, ?_⟩
      rw [hb, hc]
      simp
    · rw [if_neg hp]
      obtain ⟨ha, hb⟩ := ih hrest (c b (List.replicate a.length 0)) b (i + 1)
      refine ⟨?_, hb⟩
      rw [ha, hc]
      simp

/-- C9: for a non-empty component list, the `serial!` closure panics exactly
when the input and output slices have different lengths (the scratch buffers
are sized to the output length and `buffer_a.copy_from_slice(input)` requires
matching lengths); with equal lengths no panic branch of the combinator
itself is reachable, for any components that preserve their destination
buffer's length (as every Rust component writing through `&mut [f32]`
does). -/
theorem c9_serial_nonempty_length_panic (comps : List Component)
    (input output : List Rat) (hne : comps ≠ [])
    (hlen : ∀ c ∈ comps, ∀ inp buf, (c inp buf).length = buf.length) :
    serialRun comps input output = none ↔ input.length ≠ output.length := by
  unfold serialRun
  have hemp : comps.isEmpty = false := by
    cases comps with
    | nil => exact absurd rfl hne
    | cons c rest => rfl
  rw [hemp]
  by_cases h : input.length = output.length
  · have hcopy : copyFromSlice (List.replicate output.length 0) input = some input := by
      simp [copyFromSlice, h]
    simp only [Bool.false_eq_true, if_false, hcopy, Option.some_bind]
    obtain ⟨ha, hb⟩ :=
      pingPong_lengths comps hlen input (List.replicate output.length 0) 0
    have hfb : (if comps.length % 2 = 1
          then (pingPong comps input (List.replicate output.length 0) 0).2
          else (pingPong comps input (List.replicate output.length 0) 0).1).length
        = output.length := by
      by_cases hp : comps.length % 2 = 1 <;> simp [hp, ha, hb, h]
    simp [copyFromSlice, hfb, h]
  · have hcopy : copyFromSlice (List.replicate output.length 0) input = none := by
      simp [copyFromSlice, h]
    simp only [Bool.false_eq_true, if_false, hcopy, Option.none_bind]
    simp [h]

/-- A concrete external component that leaves its destination buffer as it
received it (already zero-filled by the combinator). -/
def bufComponent : Component := fun _ buf => buf

/-- C9 witness: with one length-preserving component, equal-length buffers do
not panic and mismatched-length buffers do. -/
theorem c9_serial_nonempty_length_panic_witness :
    serialRun [bufComponent] [(1 : Rat), 2] [0, 0] ≠ none ∧
    serialRun [bufComponent] [(1 : Rat)] [] = none := by
  constructor
  · intro hnone
    have hmp := (c9_serial_nonempty_length_panic [bufComponent] [(1 : Rat), 2] [0, 0]
      (by simp) (by intro c hc inp buf; simp at hc; subst hc; rfl)).mp hnone
    exact hmp (by decide)
  · exact (c9_serial_nonempty_length_panic [bufComponent] [(1 : Rat)] []
      (by simp) (by intro c hc inp buf; simp at hc; subst hc; rfl)).mpr (by decide)

/-- The slot bookkeeping invariant of the Builder: each next-slot counter
equals the length of its storage vector (every slot assignment pushed exactly
one deferred factory or instance), and every slot recorded in a
deduplication map is in bounds of its vector. -/
def Builder.WF (b : Builder) : Prop :=
  b.next_state_slot = b.state_builders.length ∧
  (∀ p ∈ b.state_map, p.2 < b.state_builders.length) ∧
  b.next_modulation_slot = b.modulation_builders.length ∧
  (∀ p ∈ b.modulation_map, p.2 < b.modulation_builders.length) ∧
  b.next_source_slot = b.modulation_sources.length

theorem new_WF : Builder.new.WF := by
  refine ⟨rfl, ?_, rfl, ?_, rfl⟩ <;> intro p hp <;> simp [Builder.new] at hp

theorem lookupMap_mem : ∀ (m : List (Nat × Nat)) (t s : Nat),
    lookupMap m t = some s → (t, s) ∈ m := by
  intro m
  induction m with
  | nil => intro t s h; cases h
  | cons p rest ih =>
    intro t s h
    obtain ⟨k, v⟩ := p
    simp only [lookupMap] at h
    by_cases hk : k = t
    · rw [if_pos hk] at h
      injection h with h
      subst h
      subst hk
      exact List.mem_cons_self _ _
    · rw [if_neg hk] at h
      exact List.mem_cons_of_mem _ (ih t s h)

theorem use_state_WF (b : Builder) (t : Nat) (hwf : b.WF) :
    (b.use_state t).2.WF ∧
    (b.use_state t).1 < (b.use_state t).2.state_builders.length := by
  obtain ⟨h1, h2, h3, h4, h5⟩ := hwf
  unfold Builder.use_state
  cases hl : lookupMap b.state_map t with
  | some s =>
    exact ⟨⟨h1, h2, h3, h4, h5⟩, h2 (t, s) (lookupMap_mem b.state_map t s hl)⟩
  | none =>
    refine ⟨⟨by simp [h1], ?_, h3, h4, h5⟩, by simp [h1]⟩
    intro p hp
    simp only [List.mem_cons] at hp
    rcases hp with hp | hp
    · subst hp
      simp [h1]
    · have := h2 p hp
      simp only [List.length_append, List.length_singleton]
      omega

theorem use_parameters_WF (b : Builder) (t : Nat) (hwf : b.WF) :
    (b.use_parameters t).2.WF ∧
    (b.use_parameters t).1 < (b.use_parameters t).2.modulation_builders.length := by
  obtain ⟨h1, h2, h3, h4, h5⟩ := hwf
  unfold Builder.use_parameters
  cases hl : lookupMap b.modulation_map t with
  | some s =>
    exact ⟨⟨h1, h2, h3, h4, h5⟩, h4 (t, s) (lookupMap_mem b.modulation_map t s hl)⟩
  | none =>
    refine ⟨⟨h1, h2, by simp [h3], ?_, h5⟩, by simp [h3]⟩
    intro p hp
    simp only [List.mem_cons] at hp
    rcases hp with hp | hp
    · subst hp
      simp [h3]
    · have := h4 p hp
      simp only [List.length_append, List.length_singleton]
      omega

theorem use_modulator_WF (b : Builder) (t : Nat) (hwf : b.WF) :
    (b.use_modulator t).2.WF ∧
    (b.use_modulator t).1 < (b.use_modulator t).2.modulation_sources.length := by
  obtain ⟨h1, h2, h3, h4, h5⟩ := hwf
  unfold Builder.use_modulator
  exact ⟨⟨h1, h2, h3, h4, by simp [h5]⟩, by simp [h5]⟩

theorem use_state_lengths (b : Builder) (t : Nat) :
    b.state_builders.length ≤ (b.use_state t).2.state_builders.length ∧
    (b.use_state t).2.modulation_builders = b.modulation_builders ∧
    (b.use_state t).2.modulation_sources = b.modulation_sources := by
  unfold Builder.use_state
  cases lookupMap b.state_map t with
  | some s => exact ⟨Nat.le_refl _, rfl, rfl⟩
  | none => exact ⟨by simp, rfl, rfl⟩

theorem use_parameters_lengths (b : Builder) (t : Nat) :
    (b.use_parameters t).2.state_builders = b.state_builders ∧
    b.modulation_builders.length ≤ (b.use_parameters t).2.modulation_builders.length ∧
    (b.use_parameters t).2.modulation_sources = b.modulation_sources := by
  unfold Builder.use_parameters
  cases lookupMap b.modulation_map t with
  | some s => exact ⟨rfl, Nat.le_refl _, rfl⟩
  | none => exact ⟨rfl, by simp, rfl⟩

theorem use_modulator_lengths (b : Builder) (t : Nat) :
    (b.use_modulator t).2.state_builders = b.state_builders ∧
    (b.use_modulator t).2.modulation_builders = b.modulation_builders ∧
    b.modulation_sources.length ≤ (b.use_modulator t).2.modulation_sources.length := by
  unfold Builder.use_modulator
  exact ⟨rfl, rfl, by simp⟩

theorem runCalls_lengths : ∀ (cs : List RegCall) (b : Builder),
    b.state_builders.length ≤ ((runCalls b cs).1).state_builders.length ∧
    b.modulation_builders.length ≤ ((runCalls b cs).1).modulation_builders.length ∧
    b.modulation_sources.length ≤ ((runCalls b cs).1).modulation_sources.length := by
  intro cs
  induction cs with
  | nil => intro b; exact ⟨Nat.le_refl _, Nat.le_refl _, Nat.le_refl _⟩
  | cons c0 cs ih =>
    intro b
    cases c0 with
    | state t =>
      obtain ⟨m1, m2, m3⟩ := ih (b.use_state t).2
      obtain ⟨s1, s2, s3⟩ := use_state_lengths b t
      simp only [runCalls]
      exact ⟨le_trans s1 m1,
        le_trans (le_of_eq (congrArg List.length s2.symm)) m2,
        le_trans (le_of_eq (congrArg List.length s3.symm)) m3⟩
    | params t =>
      obtain ⟨m1, m2, m3⟩ := ih (b.use_parameters t).2
      obtain ⟨s1, s2, s3⟩ := use_parameters_lengths b t
      simp only [runCalls]
      exact ⟨le_trans (le_of_eq (congrArg List.length s1.symm)) m1,
        le_trans s2 m2,
        le_trans (le_of_eq (congrArg List.length s3.symm)) m3⟩
    | modulator t =>
      obtain ⟨m1, m2, m3⟩ := ih (b.use_modulator t).2
      obtain ⟨s1, s2, s3⟩ := use_modulator_lengths b t
      simp only [runCalls]
      exact ⟨le_trans (le_of_eq (congrArg List.length s1.symm)) m1,
        le_trans (le_of_eq (congrArg List.length s2.symm)) m2,
        le_trans s3 m3⟩

theorem runCalls_bound : ∀ (cs : List RegCall) (b : Builder), b.WF →
    ∀ (c : RegCall) (s : Nat), (c, s) ∈ (runCalls b cs).2 →
      (∀ t, c = RegCall.state t → s < ((runCalls b cs).1).state_builders.length) ∧
      (∀ t, c = RegCall.params t → s < ((runCalls b cs).1).modulation_builders.length) ∧
      (∀ t, c = RegCall.modulator t → s < ((runCalls b cs).1).modulation_sources.length) := by
  intro cs
  induction cs with
  | nil => intro b _ c s hmem; simp [runCalls] at hmem
  | cons c0 cs ih =>
    intro b hwf c s hmem
    cases c0 with
    | state t0 =>
      obtain ⟨hwf2, hbound⟩ := use_state_WF b t0 hwf
      simp only [runCalls] at hmem ⊢
      rcases List.mem_cons.mp hmem with heq | hmem2
      · obtain ⟨hc, hs⟩ := Prod.ext_iff.mp heq
        subst hc
        subst hs
        refine ⟨?_, ?_, ?_⟩ <;> intro t ht
        · exact lt_of_lt_of_le hbound (runCalls_lengths cs (b.use_state t0).2).1
        · simp at ht
        · simp at ht
      · exact ih (b.use_state t0).2 hwf2 c s hmem2
    | params t0 =>
      obtain ⟨hwf2, hbound⟩ := use_parameters_WF b t0 hwf
      simp only [runCalls] at hmem ⊢
      rcases List.mem_cons.mp hmem with heq | hmem2
      · obtain ⟨hc, hs⟩ := Prod.ext_iff.mp heq
        subst hc
        subst hs
        refine ⟨?_, ?_, ?_⟩ <;> intro t ht
        · simp at ht
        · exact lt_of_lt_of_le hbound (runCalls_lengths cs (b.use_parameters t0).2).2.1
        · simp at ht
      · exact ih (b.use_parameters t0).2 hwf2 c s hmem2
    | modulator t0 =>
      obtain ⟨hwf2, hbound⟩ := use_modulator_WF b t0 hwf
      simp only [runCalls] at hmem ⊢
      rcases List.mem_cons.mp hmem with heq | hmem2
      · obtain ⟨hc, hs⟩ := Prod.ext_iff.mp heq
        subst hc
        subst hs
        refine ⟨?_, ?_, ?_⟩ <;> intro t ht
        · simp at ht
        · simp at ht
        · exact lt_of_lt_of_le hbound (runCalls_lengths cs (b.use_modulator t0).2).2.2
      · exact ih (b.use_modulator t0).2 hwf2 c s hmem2

/-- C10: every handle issued by a Builder that started fresh carries a slot
index strictly below the length of the corresponding storage array of the
Runtime built from it — `states` for state handles, `modulation_targets` for
parameter handles, `modulation_sources` for modulator handles — because each
slot assignment pushes exactly one deferred factory or instance; hence slot
indexing with an issued handle is in bounds in `get`, `get_mut`,
`get_source_mut`, `route` and `get_parameters`. -/
theorem c10_issued_handles_in_bounds (cs : List RegCall) (c : RegCall) (s : Nat)
    (hmem : (c, s) ∈ (runCalls Builder.new cs).2) :
    (∀ t, c = RegCall.state t →
        s < (((runCalls Builder.new cs).1).build).states.length) ∧
    (∀ t, c = RegCall.params t →
        s < (((runCalls Builder.new cs).1).build).modulation_targets.length) ∧
    (∀ t, c = RegCall.modulator t →
        s < (((runCalls Builder.new cs).1).build).modulation_sources.length) := by
  obtain ⟨r1, r2, r3⟩ := runCalls_bound cs Builder.new new_WF c s hmem
  refine ⟨?_, ?_, ?_⟩ <;> intro t ht
  · have := r1 t ht
    simpa [Builder.build] using this
  · have := r2 t ht
    simpa [Builder.build] using this
  · have := r3 t ht
    simpa [Builder.build] using this

/-- C10 witness: in a run registering one state type and one modulator, the
issued state handle's slot 0 is in bounds of the built Runtime's `states`
array. -/
theorem c10_issued_handles_in_bounds_witness :
    0 < (((runCalls Builder.new [RegCall.state 0, RegCall.modulator 1]).1).build).states.length :=
  (c10_issued_handles_in_bounds [RegCall.state 0, RegCall.modulator 1]
    (RegCall.state 0) 0 (by decide)).1 0 rfl
